import Mathlib

/-!
Verification of `filter_jsonl.py`: a schema-driven JSONL projection pipeline
with two sinks (line-delimited text, batched SQLite store with dual FTS5
indexes) and an optional LZFSE compression pass.

Python values decoded from JSON are modelled by the inductive `Json`;
Python `None` (both the JSON literal `null` and the "absent schema" state)
is `Json.null`.  Python `dict`s are association lists in insertion order;
`json.loads` and the projection engine only ever build dicts with distinct
keys, so lemmas that need well-defined lookup take a `Nodup` hypothesis.
-/

/-- A decoded JSON value / Python object tree.  Numbers are modelled as
integers (no claim depends on numeric representation). -/
inductive Json where
  | null : Json
  | bool (b : Bool) : Json
  | num (n : Int) : Json
  | str (s : String) : Json
  | arr (items : List Json) : Json
  | obj (fields : List (String × Json)) : Json
  deriving Repr

/-- Python `dict.get(k)`: first binding of `k` in the association list
(Python dicts have unique keys, so first = only). -/
def pyGet (kvs : List (String × Json)) (k : String) : Option Json :=
  match kvs with
  | [] => none
  | (k', v) :: rest => if k' = k then some v else pyGet rest k

/-- Python `dict.get(k, d)`. -/
def pyGetD (kvs : List (String × Json)) (k : String) (d : Json) : Json :=
  (pyGet kvs k).getD d

mutual

/-- `filter_by_schema(obj, schema)` from the source (arguments here in
`schema, obj` order).  `Json.null` is Python `None` — the pass-through
schema.  The match arms mirror the `if/elif/else` chain of the source:
dict schema against dict object projects keys; a non-empty list schema
against a list maps the first element schema over the elements; every
other combination returns the object unchanged. -/
def filterBySchema : Json → Json → Json
  | Json.null, o => o
  | Json.obj skvs, Json.obj okvs => Json.obj (filterPairs skvs okvs)
  | Json.obj _, o => o
  | Json.arr (e :: _), Json.arr items => Json.arr (filterElems e items)
  | Json.arr _, o => o
  | Json.bool _, o => o
  | Json.num _, o => o
  | Json.str _, o => o
termination_by s _ => (sizeOf s, 0)
decreasing_by all_goals simp_wf; omega

/-- The dict-projection loop of `filter_by_schema`: iterate the schema's
keys in schema order; keep a key iff the record has it, recursing on the
value. -/
def filterPairs : List (String × Json) → List (String × Json) → List (String × Json)
  | [], _ => []
  | (k, sv) :: rest, okvs =>
    match pyGet okvs k with
    | some ov => (k, filterBySchema sv ov) :: filterPairs rest okvs
    | none => filterPairs rest okvs
termination_by l _ => (sizeOf l, 0)
decreasing_by all_goals simp_wf; omega

/-- The list-comprehension arm of `filter_by_schema`: apply the first
element's schema to every element. -/
def filterElems (e : Json) : List Json → List Json
  | [] => []
  | x :: xs => filterBySchema e x :: filterElems e xs
termination_by xs => (sizeOf e, sizeOf xs + 1)
decreasing_by all_goals simp_wf; omega

end

theorem filterElems_eq_map (e : Json) (xs : List Json) :
    filterElems e xs = xs.map (filterBySchema e) := by
  induction xs with
  | nil => rw [filterElems]; rfl
  | cons x xs ih => rw [filterElems]; simp [ih]

theorem filterBySchema_null (o : Json) : filterBySchema Json.null o = o := by
  rw [filterBySchema]

/-- Whether a Python value is a `list` (`isinstance(obj, list)`). -/
def Json.isArr : Json → Bool
  | Json.arr _ => true
  | _ => false

/-- Whether a Python value is a `dict` (`isinstance(obj, dict)`). -/
def Json.isObj : Json → Bool
  | Json.obj _ => true
  | _ => false

theorem filterBySchema_obj_obj (skvs okvs : List (String × Json)) :
    filterBySchema (Json.obj skvs) (Json.obj okvs) = Json.obj (filterPairs skvs okvs) := by
  rw [filterBySchema]

theorem filterBySchema_arr_cons (e : Json) (rest items : List Json) :
    filterBySchema (Json.arr (e :: rest)) (Json.arr items)
      = Json.arr (items.map (filterBySchema e)) := by
  rw [filterBySchema, filterElems_eq_map]

theorem filterBySchema_arr_nil (o : Json) :
    filterBySchema (Json.arr []) o = o := by
  rw [filterBySchema]
  intro e tl items h
  exact absurd h (by simp)

theorem filterBySchema_arr_not (e : Json) (rest : List Json) (v : Json)
    (hv : v.isArr = false) : filterBySchema (Json.arr (e :: rest)) v = v := by
  rw [filterBySchema]
  intro e' tl items _ hveq
  rw [hveq] at hv
  exact absurd hv (by simp [Json.isArr])

theorem filterPairs_keys (skvs okvs : List (String × Json)) :
    (filterPairs skvs okvs).map Prod.fst
      = (skvs.map Prod.fst).filter (fun k => (pyGet okvs k).isSome) := by
  induction skvs with
  | nil => rw [filterPairs]; rfl
  | cons p rest ih =>
    obtain ⟨k, sv⟩ := p
    rw [filterPairs]
    cases h : pyGet okvs k with
    | none => simpa [h] using ih
    | some ov => simpa [h] using ih

theorem filterPairs_lookup (skvs okvs : List (String × Json)) (k : String)
    (sv ov : Json) (hs : pyGet skvs k = some sv) (ho : pyGet okvs k = some ov) :
    pyGet (filterPairs skvs okvs) k = some (filterBySchema sv ov) := by
  induction skvs with
  | nil => simp [pyGet] at hs
  | cons p rest ih =>
    obtain ⟨k', sv'⟩ := p
    rw [filterPairs]
    by_cases hk : k' = k
    · subst hk
      rw [pyGet] at hs
      simp at hs
      subst hs
      rw [ho]
      simp [pyGet]
    · rw [pyGet] at hs
      rw [if_neg hk] at hs
      cases h : pyGet okvs k' with
      | none => exact ih hs
      | some ov' =>
        rw [pyGet, if_neg hk]
        exact ih hs

/-- C3: Object projection.  For a mapping record and an `Object` schema,
`filter_by_schema` returns a mapping whose key list is exactly the schema's
key list restricted to keys present in the record — hence exactly the keys
present in both sides, in the schema's own order, independent of the
record's key order — and each kept key maps to the recursive projection of
the record's value under the schema's value at that key.  Keys of the
record absent from the schema are dropped; keys of the schema absent from
the record are omitted. -/
theorem object_projection (skvs okvs : List (String × Json)) :
    filterBySchema (Json.obj skvs) (Json.obj okvs) = Json.obj (filterPairs skvs okvs) ∧
    (filterPairs skvs okvs).map Prod.fst
      = (skvs.map Prod.fst).filter (fun k => (pyGet okvs k).isSome) ∧
    ∀ k sv ov, pyGet skvs k = some sv → pyGet okvs k = some ov →
      pyGet (filterPairs skvs okvs) k = some (filterBySchema sv ov) :=
  ⟨filterBySchema_obj_obj skvs okvs, filterPairs_keys skvs okvs,
   fun k sv ov hs ho => filterPairs_lookup skvs okvs k sv ov hs ho⟩

/-- C4: Array projection.  A non-empty array schema `e :: rest` applied to a
sequence of length `k` yields a sequence of length `k` whose `i`-th element
is the projection of the input's `i`-th element under the first element
schema `e`, preserving order; an empty array schema passes any value
through unchanged; and a non-empty array schema applied to a non-sequence
value passes it through unchanged. -/
theorem array_projection (e : Json) (rest items : List Json) (w v : Json)
    (hv : v.isArr = false) :
    (∃ out, filterBySchema (Json.arr (e :: rest)) (Json.arr items) = Json.arr out ∧
       out.length = items.length ∧
       ∀ i : Nat, out[i]? = (items[i]?).map (filterBySchema e)) ∧
    filterBySchema (Json.arr []) w = w ∧
    filterBySchema (Json.arr (e :: rest)) v = v := by
  refine ⟨⟨items.map (filterBySchema e), filterBySchema_arr_cons e rest items, by simp, ?_⟩,
    filterBySchema_arr_nil w, filterBySchema_arr_not e rest v hv⟩
  intro i
  simp [List.getElem?_map]

/-- Witness for C4 at a concrete input: a non-empty array schema applied to
the non-sequence value `"x"` passes it through unchanged. -/
theorem array_projection_witness :
    filterBySchema (Json.arr [Json.null]) (Json.str "x") = Json.str "x" :=
  (array_projection Json.null [] [] Json.null (Json.str "x") rfl).2.2

/-- C5: Pass-through identity.  Projection under the absent (`None`) schema
— `Json.null`, Python's `None` — is the identity on every record. -/
theorem passthrough_identity (r : Json) : filterBySchema Json.null r = r :=
  filterBySchema_null r

/-! ## The pipeline driver (`main`'s processing loop)

The loop reads decoded records one per line (`lines_read` counts every
consumed line), skips records whose `lang_code` is not the string `"fr"`,
projects the rest, hands them to the sink, and breaks as soon as
`n is not None and lines_output >= n`.  The sink is abstracted as the list
of projected records handed to it, in order.  A record that is not a
mapping makes `obj.get` raise `AttributeError`, aborting the run. -/

/-- The driver's tag predicate: `obj.get('lang_code') != 'fr'` skips the
record, so it is kept exactly when the value is the string `"fr"`
(only a Python `str` compares equal to `'fr'`). -/
def tagMatches (o : Json) : Bool :=
  match o with
  | Json.obj kvs =>
    match pyGet kvs "lang_code" with
    | some (Json.str s) => s == "fr"
    | _ => false
  | _ => false

/-- `n is not None and lines_output >= n`.  The CLI limit is a Python
`int`, so it is modelled as an `Int` (it may be negative). -/
def stopAfter (n : Option Int) (linesOut : Nat) : Bool :=
  match n with
  | some m => m ≤ (linesOut : Int)
  | none => false

/-- Outcome of the processing loop: lines consumed and records written,
terminating normally (`done`) or by an uncaught exception (`err`, here
only the `AttributeError` on a non-mapping record). -/
inductive LoopOut where
  | done (linesRead : Nat) (written : List Json)
  | err (linesRead : Nat) (written : List Json)
  deriving Repr

/-- Prepend the accounting of an already-consumed prefix to a loop
outcome. -/
def LoopOut.addLine (k : Nat) (pre : List Json) : LoopOut → LoopOut
  | done r w => done (r + k) (pre ++ w)
  | err r w => err (r + k) (pre ++ w)

/-- Number of records handed to the sink. -/
def LoopOut.writtenLen : LoopOut → Nat
  | done _ w => w.length
  | err _ w => w.length

/-- The `for line in f` loop of `main`, over already-decoded records.
`written` is the running `lines_output` counter. -/
def mainLoop (n : Option Int) (schema : Json) (written : Nat) :
    List Json → LoopOut
  | [] => LoopOut.done 0 []
  | o :: rest =>
    match o with
    | Json.obj kvs =>
      if tagMatches (Json.obj kvs) then
        let w := filterBySchema schema (Json.obj kvs)
        if stopAfter n (written + 1) then LoopOut.done 1 [w]
        else (mainLoop n schema (written + 1) rest).addLine 1 [w]
      else (mainLoop n schema written rest).addLine 1 []
    | _ => LoopOut.err 1 []

theorem tagMatches_isObj (o : Json) (h : tagMatches o = true) :
    o.isObj = true := by
  cases o <;> simp [tagMatches, Json.isObj] at h ⊢

theorem Json.isObj_exists (o : Json) (h : o.isObj = true) :
    ∃ kvs, o = Json.obj kvs := by
  cases o <;> simp [Json.isObj] at h ⊢

/-- With limit `n` and accumulated output count `w` such that the pending
matching records up to and including `r` bring the count exactly to `n`,
the loop writes them all, stops right after `r`, and never looks at
`post`. -/
theorem mainLoop_cutoff (n : Int) (schema : Json) (pre post : List Json)
    (r : Json) (w : Nat)
    (hpre : ∀ o ∈ pre, o.isObj = true) (hr : tagMatches r = true)
    (hcount : (((pre ++ [r]).filter tagMatches).length : Int) + w = n) :
    mainLoop (some n) schema w (pre ++ r :: post)
      = LoopOut.done (pre.length + 1)
          (((pre ++ [r]).filter tagMatches).map (filterBySchema schema)) := by
  induction pre generalizing w with
  | nil =>
    obtain ⟨kvs, rfl⟩ := Json.isObj_exists r (tagMatches_isObj r hr)
    have hstop : stopAfter (some n) (w + 1) = true := by
      simp only [List.nil_append, List.filter_cons, hr, if_pos, List.filter_nil,
        List.length_cons, List.length_nil] at hcount
      simp only [stopAfter, decide_eq_true_eq]
      omega
    simp [mainLoop, hr, hstop]
  | cons p pre' ih =>
    obtain ⟨kvs, rfl⟩ := Json.isObj_exists p (hpre p (List.mem_cons_self p pre'))
    have hpre' : ∀ o ∈ pre', o.isObj = true :=
      fun o ho => hpre o (List.mem_cons_of_mem _ ho)
    cases htag : tagMatches (Json.obj kvs) with
    | true =>
      have hge : 1 ≤ ((pre' ++ [r]).filter tagMatches).length := by
        have hmem : r ∈ (pre' ++ [r]).filter tagMatches :=
          List.mem_filter.mpr ⟨by simp, hr⟩
        exact List.length_pos.mpr (List.ne_nil_of_mem hmem)
      have hcount' : (((pre' ++ [r]).filter tagMatches).length : Int) + (w + 1) = n := by
        simp only [List.cons_append, List.filter_cons, htag, if_pos, List.length_cons] at hcount
        push_cast at hcount ⊢
        omega
      have hstop : stopAfter (some n) (w + 1) = false := by
        simp only [stopAfter, decide_eq_false_iff_not]
        omega
      have hrec := ih (w + 1) hpre' hcount'
      simp [mainLoop, htag, hstop, hrec, LoopOut.addLine, List.filter_cons]
    | false =>
      have hcount' : (((pre' ++ [r]).filter tagMatches).length : Int) + w = n := by
        simpa [List.filter_cons, htag] using hcount
      have hrec := ih w hpre' hcount'
      simp [mainLoop, htag, hrec, LoopOut.addLine, List.filter_cons]

/-- With a limit of `0` and with a limit of `1` the loop behaves
identically: the limit check runs only after a write, and after the first
write the running count `1` satisfies both `1 >= 0` and `1 >= 1`. -/
theorem mainLoop_zero_eq_one (schema : Json) (w : Nat) (l : List Json) :
    mainLoop (some 0) schema w l = mainLoop (some 1) schema w l := by
  induction l generalizing w with
  | nil => rfl
  | cons o rest ih =>
    cases o with
    | obj kvs =>
      cases htag : tagMatches (Json.obj kvs) with
      | true =>
        have h0 : stopAfter (some 0) (w + 1) = true := by
          simp only [stopAfter, decide_eq_true_eq]
          omega
        have h1 : stopAfter (some 1) (w + 1) = true := by
          simp only [stopAfter, decide_eq_true_eq]
          omega
        simp [mainLoop, htag, h0, h1]
      | false => simp [mainLoop, htag, ih]
    | null => rfl
    | bool b => rfl
    | num m => rfl
    | str s => rfl
    | arr items => rfl

/-- C6 (amended: for limits `n ≥ 1`): with limit `n` and a matching record
`r` bringing the number of matching records seen so far to exactly `n`,
the loop hands exactly the `n` projected matching records to the sink,
in order, and consumes exactly the lines up to and including `r` —
nothing of `post` is read.  Records failing the tag predicate are not
written and do not count. -/
theorem cutoff_exactness (n : Nat) (_hn : 1 ≤ n) (schema : Json)
    (pre post : List Json) (r : Json)
    (hpre : ∀ o ∈ pre, o.isObj = true) (hr : tagMatches r = true)
    (hcount : ((pre ++ [r]).filter tagMatches).length = n) :
    mainLoop (some (n : Int)) schema 0 (pre ++ r :: post)
      = LoopOut.done (pre.length + 1)
          (((pre ++ [r]).filter tagMatches).map (filterBySchema schema)) ∧
    (mainLoop (some (n : Int)) schema 0 (pre ++ r :: post)).writtenLen = n := by
  have h := mainLoop_cutoff (n : Int) schema pre post r 0 hpre hr
    (by have hc := hcount; push_cast at hc ⊢; omega)
  refine ⟨h, ?_⟩
  rw [h]
  simp only [LoopOut.writtenLen, List.length_map]
  exact hcount

/-- Witness for C6 at a concrete input: limit `1`, one matching record
followed by an unread non-matching line. -/
theorem cutoff_exactness_witness :
    mainLoop (some ((1 : Nat) : Int)) Json.null 0
        [Json.obj [("lang_code", Json.str "fr")], Json.obj []]
      = LoopOut.done 1
          (([Json.obj [("lang_code", Json.str "fr")]].filter tagMatches).map
            (filterBySchema Json.null)) ∧
    (mainLoop (some ((1 : Nat) : Int)) Json.null 0
        [Json.obj [("lang_code", Json.str "fr")], Json.obj []]).writtenLen = 1 :=
  cutoff_exactness 1 (by decide) Json.null [] [Json.obj []]
    (Json.obj [("lang_code", Json.str "fr")]) (by simp) (by decide) (by decide)

/-- Counterexample to C6 as stated: with limit `0` and one matching record
available, the driver writes one record, not zero — the limit check runs
only after the write, so a limit of `0` cannot yield zero writes. -/
theorem cutoff_limit_zero_cex :
    (mainLoop (some 0) Json.null 0
        [Json.obj [("lang_code", Json.str "fr")]]).writtenLen = 1 ∧
    (mainLoop (some 0) Json.null 0
        [Json.obj [("lang_code", Json.str "fr")]]).writtenLen ≠ 0 := by
  constructor
  · rfl
  · decide

/-- C9: a limit of `0` behaves exactly like a limit of `1`: the loop with
limit `0` is pointwise equal to the loop with limit `1`, and on an input
whose first matching record is `r`, exactly one record is written. -/
theorem limit_zero_behaves_like_one (schema : Json) (pre post : List Json)
    (r : Json)
    (hpre : ∀ o ∈ pre, o.isObj = true ∧ tagMatches o = false)
    (hr : tagMatches r = true) :
    mainLoop (some 0) schema 0 (pre ++ r :: post)
      = mainLoop (some 1) schema 0 (pre ++ r :: post) ∧
    (mainLoop (some 0) schema 0 (pre ++ r :: post)).writtenLen = 1 := by
  have heq := mainLoop_zero_eq_one schema 0 (pre ++ r :: post)
  have hnil : pre.filter tagMatches = [] :=
    List.filter_eq_nil_iff.mpr (fun o ho => by simp [(hpre o ho).2])
  have hcount : ((pre ++ [r]).filter tagMatches).length = 1 := by
    simp [List.filter_append, hnil, List.filter_cons, hr]
  have h := mainLoop_cutoff (1 : Int) schema pre post r 0
    (fun o ho => (hpre o ho).1) hr (by have hc := hcount; push_cast at hc ⊢; omega)
  refine ⟨heq, ?_⟩
  rw [heq, h]
  simp only [LoopOut.writtenLen, List.length_map]
  exact hcount

/-- Witness for C9 at a concrete input: limit `0`, one matching record. -/
theorem limit_zero_behaves_like_one_witness :
    mainLoop (some 0) Json.null 0 [Json.obj [("lang_code", Json.str "fr")]]
      = mainLoop (some 1) Json.null 0 [Json.obj [("lang_code", Json.str "fr")]] ∧
    (mainLoop (some 0) Json.null 0
        [Json.obj [("lang_code", Json.str "fr")]]).writtenLen = 1 :=
  limit_zero_behaves_like_one Json.null [] []
    (Json.obj [("lang_code", Json.str "fr")]) (by simp) (by decide)

/-! ## The store sink (`SqliteOutput` over the schema of `init_sqlite_db`)

The persisted database has a primary table `entries` with auto-increment
identities starting at `1`, a `word TEXT NOT NULL` column, a nullable
`pos TEXT` column and a `data TEXT NOT NULL` payload, plus two
external-content FTS5 structures over `word` (`entries_fts`, prefix
tokenizer; `entries_fts_trigram`, trigram tokenizer), each a set of
`(rowid, word)` postings kept in sync with `entries` by the three
triggers of `init_sqlite_db`: every insert into `entries` propagates
`(new.id, new.word)` into both, deletes tombstone by identity, updates
do both.  Only inserts are reachable from `SqliteOutput`.

SQLite value binding for a `TEXT` column is modelled by `bindText`:
Python `str` binds as itself, `int`/`bool` bind and are converted to
text by the column's affinity, `None` binds as SQL `NULL`, and `list` /
`dict` cannot be bound at all.  The serialized payload
`json.dumps(filtered_obj)` is always a string; serialization itself is
out of scope, so the payload column carries the record. -/

/-- How a buffered Python value binds to a `TEXT` column: `Except.error`
is an unbindable type (`sqlite3.InterfaceError`), `Except.ok none` is SQL
`NULL`, `Except.ok (some t)` is the text stored after affinity
conversion. -/
def bindText : Json → Except Unit (Option String)
  | Json.null => Except.ok none
  | Json.bool b => Except.ok (some (if b then "1" else "0"))
  | Json.num n => Except.ok (some (toString n))
  | Json.str s => Except.ok (some s)
  | Json.arr _ => Except.error ()
  | Json.obj _ => Except.error ()

/-- A live row of the primary `entries` table. -/
structure Row where
  id : Nat
  word : String
  pos : Option String
  data : Json
  deriving Repr

/-- The persisted store: primary table, the two FTS5 posting structures,
and the auto-increment counter. -/
structure Db where
  nextId : Nat
  entries : List Row
  fts : List (Nat × String)
  ftsTrigram : List (Nat × String)
  deriving Repr

/-- The freshly created store of `init_sqlite_db`: empty tables,
auto-increment starts at `1`. -/
def dbInit : Db := { nextId := 1, entries := [], fts := [], ftsTrigram := [] }

/-- A buffered batch element `(word, pos, data)` as appended by
`SqliteOutput.write`: the raw Python values of `filtered_obj.get`. -/
structure Entry where
  word : Json
  pos : Json
  data : Json
  deriving Repr

/-- One `INSERT INTO entries (word, pos, data) VALUES (?, ?, ?)`:
binding failure or a `NOT NULL` violation on `word` raises; on success
the `entries_ai` trigger propagates `(new.id, new.word)` into both FTS5
structures. -/
def Db.insertEntry (db : Db) (e : Entry) : Except Unit Db :=
  match bindText e.word, bindText e.pos with
  | Except.ok (some w), Except.ok p =>
    Except.ok
      { nextId := db.nextId + 1,
        entries := db.entries ++ [⟨db.nextId, w, p, e.data⟩],
        fts := db.fts ++ [(db.nextId, w)],
        ftsTrigram := db.ftsTrigram ++ [(db.nextId, w)] }
  | _, _ => Except.error ()

/-- `cursor.executemany` over a batch: the inserts run in order; a failed
insert raises, and since `conn.commit()` then never runs, the rows of the
failed batch are rolled back — the persisted state is the pre-batch
database. -/
def Db.insertAll (db : Db) (es : List Entry) : Except Unit Db :=
  match es with
  | [] => Except.ok db
  | e :: rest =>
    match db.insertEntry e with
    | Except.ok db' => db'.insertAll rest
    | Except.error u => Except.error u

/-- The sink's storage handle: persisted database plus whether
`conn.close()` has run. -/
structure Conn where
  db : Db
  isOpen : Bool
  deriving Repr

/-- `SqliteOutput`: connection and in-memory batch. -/
structure Sink where
  conn : Conn
  batch : List Entry
  deriving Repr

/-- `self.batch_size = 100`. -/
def batchSize : Nat := 100

/-- `SqliteOutput(db_path)`: fresh store, open connection, empty batch. -/
def sinkInit : Sink := { conn := { db := dbInit, isOpen := true }, batch := [] }

/-- `SqliteOutput.flush`: a no-op on an empty batch; otherwise
`executemany` + `commit` + clear.  `executemany` on a closed connection
raises `ProgrammingError`; an insert failure raises and leaves the batch
uncleared and the persisted state at the last commit.  `Except.error`
carries the sink as the exception propagates. -/
def Sink.flush (s : Sink) : Except Sink Sink :=
  if s.batch.isEmpty then Except.ok s
  else if s.conn.isOpen then
    match s.conn.db.insertAll s.batch with
    | Except.ok db' => Except.ok { conn := { s.conn with db := db' }, batch := [] }
    | Except.error _ => Except.error s
  else Except.error s

/-- The entry built by `SqliteOutput.write`:
`word = filtered_obj.get('word', '')`, `pos = filtered_obj.get('pos', '')`,
`data = json.dumps(filtered_obj)` (the record itself, see above).  A
non-`dict` record makes `.get` raise `AttributeError` (`none`). -/
def mkEntry (r : Json) : Option Entry :=
  match r with
  | Json.obj kvs =>
    some { word := pyGetD kvs "word" (Json.str ""),
           pos := pyGetD kvs "pos" (Json.str ""),
           data := Json.obj kvs }
  | _ => none

/-- `SqliteOutput.write`: append the extracted entry to the batch, then
flush if the batch has reached `batch_size`. -/
def Sink.write (s : Sink) (r : Json) : Except Sink Sink :=
  match mkEntry r with
  | none => Except.error s
  | some e =>
    let s' : Sink := { s with batch := s.batch ++ [e] }
    if batchSize ≤ s'.batch.length then s'.flush else Except.ok s'

/-- `SqliteOutput.close`: flush the remaining batch, then release the
handle.  If the flush raises, `conn.close()` is never reached. -/
def Sink.close (s : Sink) : Except Sink Sink :=
  match s.flush with
  | Except.ok s' => Except.ok { s' with conn := { s'.conn with isOpen := false } }
  | Except.error s' => Except.error s'

/-- Feed a list of projected records to the sink in order; the first
uncaught exception aborts the run. -/
def writeList (s : Sink) : List Json → Except Sink Sink
  | [] => Except.ok s
  | r :: rs =>
    match s.write r with
    | Except.ok s' => writeList s' rs
    | Except.error s' => Except.error s'

/-- A full store-mode run: all writes, then `close()` — `close` runs in
`main`'s `finally` block even when a write raised; the original exception
then still propagates. -/
def runStore (rs : List Json) : Except Sink Sink :=
  match writeList sinkInit rs with
  | Except.ok s => s.close
  | Except.error s =>
    match s.close with
    | Except.ok s' => Except.error s'
    | Except.error s' => Except.error s'

/-- The persisted database of a finished (or aborted) run; on an abort
the uncommitted in-flight batch is rolled back, so this is the
last-committed state in either case. -/
def persistedDb : Except Sink Sink → Db
  | Except.ok s => s.conn.db
  | Except.error s => s.conn.db

/-- A buffered entry the primary-table insert accepts: `word` binds to a
non-`NULL` text (`word TEXT NOT NULL`) and `pos` binds. -/
def Entry.insertable (e : Entry) : Bool :=
  match bindText e.word, bindText e.pos with
  | Except.ok (some _), Except.ok _ => true
  | _, _ => false

/-- A projected record the store sink persists without an exception: a
mapping whose extracted `word`/`pos` values make an insertable entry. -/
def recordOk (r : Json) : Bool :=
  match mkEntry r with
  | some e => e.insertable
  | none => false

theorem insertable_exists (e : Entry) (h : e.insertable = true) :
    ∃ w p, bindText e.word = Except.ok (some w) ∧ bindText e.pos = Except.ok p := by
  unfold Entry.insertable at h
  cases hw : bindText e.word with
  | error u => rw [hw] at h; simp at h
  | ok ow =>
    cases ow with
    | none => rw [hw] at h; simp at h
    | some w =>
      cases hp : bindText e.pos with
      | error u => rw [hw, hp] at h; simp at h
      | ok p => exact ⟨w, p, rfl, rfl⟩

theorem insertEntry_ok (db : Db) (e : Entry) (h : e.insertable = true) :
    ∃ db', db.insertEntry e = Except.ok db' ∧
      db'.entries.length = db.entries.length + 1 := by
  obtain ⟨w, p, hw, hp⟩ := insertable_exists e h
  refine ⟨{ nextId := db.nextId + 1,
            entries := db.entries ++ [⟨db.nextId, w, p, e.data⟩],
            fts := db.fts ++ [(db.nextId, w)],
            ftsTrigram := db.ftsTrigram ++ [(db.nextId, w)] }, ?_, by simp⟩
  unfold Db.insertEntry
  rw [hw, hp]

theorem insertAll_ok (es : List Entry) (db : Db)
    (h : ∀ e ∈ es, e.insertable = true) :
    ∃ db', db.insertAll es = Except.ok db' ∧
      db'.entries.length = db.entries.length + es.length := by
  induction es generalizing db with
  | nil => exact ⟨db, rfl, by simp [Db.insertAll]⟩
  | cons e rest ih =>
    obtain ⟨db1, h1, hlen1⟩ :=
      insertEntry_ok db e (h e (List.mem_cons_self e rest))
    obtain ⟨db', h', hlen'⟩ :=
      ih db1 (fun x hx => h x (List.mem_cons_of_mem _ hx))
    refine ⟨db', ?_, ?_⟩
    · unfold Db.insertAll
      rw [h1]
      exact h'
    · rw [hlen', hlen1]
      simp [Nat.add_assoc, Nat.add_comm 1 rest.length]

/-- The in-flight state invariant of `SqliteOutput` after `k` successful
writes: connection open, batch strictly under capacity, persisted rows
plus buffered entries account for every write, and every buffered entry
is insertable. -/
def SinkInv (s : Sink) (k : Nat) : Prop :=
  s.conn.isOpen = true ∧ s.batch.length < batchSize ∧
  s.conn.db.entries.length + s.batch.length = k ∧
  ∀ e ∈ s.batch, e.insertable = true

theorem sinkInit_inv : SinkInv sinkInit 0 := by
  refine ⟨rfl, by simp [sinkInit, batchSize], by simp [sinkInit, dbInit], ?_⟩
  intro e he
  simp [sinkInit] at he

theorem flush_ok (s : Sink) (hopen : s.conn.isOpen = true)
    (hins : ∀ e ∈ s.batch, e.insertable = true) :
    ∃ s', s.flush = Except.ok s' ∧ s'.batch = [] ∧ s'.conn.isOpen = true ∧
      s'.conn.db.entries.length = s.conn.db.entries.length + s.batch.length := by
  unfold Sink.flush
  cases hb : s.batch.isEmpty with
  | true =>
    refine ⟨s, by simp, ?_, hopen, ?_⟩
    · exact List.isEmpty_iff.mp hb
    · rw [List.isEmpty_iff.mp hb]
      simp
  | false =>
    obtain ⟨db', hdb, hlen⟩ := insertAll_ok s.batch s.conn.db hins
    rw [hopen]
    simp only [Bool.false_eq_true, if_false, if_true, hdb]
    exact ⟨_, rfl, rfl, hopen, hlen⟩

theorem write_ok (s : Sink) (r : Json) (k : Nat) (hinv : SinkInv s k)
    (hr : recordOk r = true) :
    ∃ s', s.write r = Except.ok s' ∧ SinkInv s' (k + 1) := by
  obtain ⟨hopen, hlt, hcnt, hins⟩ := hinv
  unfold recordOk at hr
  cases he : mkEntry r with
  | none => rw [he] at hr; simp at hr
  | some e =>
    rw [he] at hr
    unfold Sink.write
    rw [he]
    simp only
    set s1 : Sink := { s with batch := s.batch ++ [e] } with hs1
    have hins1 : ∀ x ∈ s1.batch, x.insertable = true := by
      intro x hx
      rcases List.mem_append.mp hx with h | h
      · exact hins x h
      · simp at h; subst h; exact hr
    have hlen1 : s1.batch.length = s.batch.length + 1 := by simp [hs1]
    by_cases hcap : batchSize ≤ s1.batch.length
    · rw [if_pos hcap]
      obtain ⟨s', hfl, hb', hop', hlen'⟩ := flush_ok s1 hopen hins1
      refine ⟨s', hfl, hop', ?_, ?_, ?_⟩
      · rw [hb']; simp [batchSize]
      · rw [hlen', hb']
        simp only [List.length_nil, Nat.add_zero]
        have e1 : s1.conn.db.entries.length = s.conn.db.entries.length := rfl
        rw [e1, hlen1]
        omega
      · rw [hb']; intro e' he'; simp at he'
    · rw [if_neg hcap]
      refine ⟨s1, rfl, hopen, by omega, by simp [hs1]; omega, hins1⟩

theorem writeList_ok (rs : List Json) (s : Sink) (k : Nat) (hinv : SinkInv s k)
    (h : ∀ r ∈ rs, recordOk r = true) :
    ∃ s', writeList s rs = Except.ok s' ∧ SinkInv s' (k + rs.length) := by
  induction rs generalizing s k with
  | nil => exact ⟨s, rfl, by simpa using hinv⟩
  | cons r rest ih =>
    obtain ⟨s1, h1, hinv1⟩ := write_ok s r k hinv (h r (List.mem_cons_self r rest))
    obtain ⟨s', h', hinv'⟩ := ih s1 (k + 1) hinv1
      (fun x hx => h x (List.mem_cons_of_mem _ hx))
    refine ⟨s', ?_, ?_⟩
    · unfold writeList
      rw [h1]
      exact h'
    · simpa [Nat.add_assoc, Nat.add_comm 1 rest.length] using hinv'

theorem close_ok (s : Sink) (k : Nat) (hinv : SinkInv s k) :
    ∃ s', s.close = Except.ok s' ∧ s'.conn.db.entries.length = k ∧
      s'.batch = [] ∧ s'.conn.isOpen = false := by
  obtain ⟨hopen, _, hcnt, hins⟩ := hinv
  obtain ⟨s1, hfl, hb, _, hlen⟩ := flush_ok s hopen hins
  unfold Sink.close
  rw [hfl]
  exact ⟨_, rfl, by simp [hlen, hcnt], by simp [hb], rfl⟩

/-- `true` iff the run finished without an uncaught exception. -/
def runOk : Except Sink Sink → Bool
  | Except.ok _ => true
  | Except.error _ => false

/-- C2 (amended: for records the primary table accepts — mappings whose
extracted `word` binds to non-`NULL` text and whose `pos` binds): after
`k` writes and a close, the run succeeds and the persisted row count is
exactly `k` (for every `k`, in particular `99`, `100` and `101`); the
close leaves an empty batch behind, so the final partial batch is never
lost; and a flush of an empty batch is a no-op for every sink state. -/
theorem batch_flush_exactness (rs : List Json)
    (h : ∀ r ∈ rs, recordOk r = true) :
    (∃ s', runStore rs = Except.ok s' ∧
       s'.conn.db.entries.length = rs.length ∧ s'.batch = []) ∧
    (∀ t : Sink, t.batch = [] → t.flush = Except.ok t) := by
  constructor
  · obtain ⟨s1, h1, hinv1⟩ := writeList_ok rs sinkInit 0 sinkInit_inv h
    obtain ⟨s', h', hlen, hb, _⟩ := close_ok s1 (0 + rs.length) hinv1
    refine ⟨s', ?_, by simpa using hlen, hb⟩
    unfold runStore
    rw [h1]
    exact h'
  · intro t ht
    unfold Sink.flush
    rw [ht]
    simp

/-- Witness for C2 at a concrete input: one record with no `word`/`pos`
keys (both default to empty text). -/
theorem batch_flush_exactness_witness :
    ((∃ s', runStore [Json.obj []] = Except.ok s' ∧
        s'.conn.db.entries.length = [Json.obj []].length ∧ s'.batch = []) ∧
     (∀ t : Sink, t.batch = [] → t.flush = Except.ok t)) :=
  batch_flush_exactness [Json.obj []] (by decide)

/-- Counterexample to C2 as stated: a single write of a record whose
`word` key is present with value `null` is buffered, but the flush inside
`close()` violates `word TEXT NOT NULL`; the run aborts and the persisted
row count is `0`, not `1`. -/
theorem batch_flush_null_word_cex :
    runOk (runStore [Json.obj [("word", Json.null)]]) = false ∧
    (persistedDb (runStore [Json.obj [("word", Json.null)]])).entries.length = 0 := by
  constructor
  · rfl
  · rfl

/-- Counterexample to C8 as stated: after `close()`, a further write is
accepted without any error and its entry is buffered — nothing rejects
it. -/
theorem write_after_close_accepted_cex :
    ∃ sc s', sinkInit.close = Except.ok sc ∧ sc.conn.isOpen = false ∧
      sc.write (Json.obj []) = Except.ok s' ∧ s'.batch.length = 1 := by
  refine ⟨_, _, rfl, rfl, rfl, rfl⟩

/-- The sink state right after `SqliteOutput(db_path)` + `close()` with
no writes: fresh empty store, released handle. -/
def closedSink : Sink := { conn := { db := dbInit, isOpen := false }, batch := [] }

theorem writeList_closed_under (rs : List Json) (s : Sink)
    (hclosed : s.conn.isOpen = false)
    (hobj : ∀ r ∈ rs, (mkEntry r).isSome = true)
    (hlen : s.batch.length + rs.length < batchSize) :
    ∃ s', writeList s rs = Except.ok s' ∧
      s'.batch.length = s.batch.length + rs.length ∧ s'.conn = s.conn := by
  induction rs generalizing s with
  | nil => exact ⟨s, rfl, by simp, rfl⟩
  | cons r rest ih =>
    cases he : mkEntry r with
    | none =>
      have := hobj r (List.mem_cons_self r rest)
      rw [he] at this
      simp at this
    | some e =>
      set s1 : Sink := { s with batch := s.batch ++ [e] } with hs1
      have hnocap : ¬ batchSize ≤ s1.batch.length := by
        simp only [hs1, List.length_append, List.length_cons, List.length_nil]
        simp only [List.length_cons] at hlen
        omega
      obtain ⟨s', h', hlen', hconn'⟩ := ih s1 hclosed
        (fun x hx => hobj x (List.mem_cons_of_mem _ hx))
        (by simp only [hs1, List.length_append, List.length_cons, List.length_nil]
            simp only [List.length_cons] at hlen
            omega)
      refine ⟨s', ?_, ?_, hconn'⟩
      · unfold writeList Sink.write
        rw [he]
        simp only [if_neg hnocap]
        exact h'
      · rw [hlen']
        simp [hs1]
        omega

theorem writeList_closed_capacity (rs : List Json) (s : Sink)
    (hclosed : s.conn.isOpen = false)
    (hobj : ∀ r ∈ rs, (mkEntry r).isSome = true)
    (hne : rs ≠ [])
    (hlen : s.batch.length + rs.length = batchSize) :
    ∃ s', writeList s rs = Except.error s' ∧ s'.conn = s.conn := by
  induction rs generalizing s with
  | nil => exact absurd rfl hne
  | cons r rest ih =>
    cases he : mkEntry r with
    | none =>
      have := hobj r (List.mem_cons_self r rest)
      rw [he] at this
      simp at this
    | some e =>
      set s1 : Sink := { s with batch := s.batch ++ [e] } with hs1
      cases rest with
      | nil =>
        have hcap : batchSize ≤ s1.batch.length := by
          simp only [hs1, List.length_append, List.length_cons, List.length_nil]
          simp only [List.length_cons, List.length_nil] at hlen
          omega
        have hbne : s1.batch.isEmpty = false := by
          simp [hs1]
        refine ⟨s1, ?_, rfl⟩
        unfold writeList Sink.write
        rw [he]
        simp only [if_pos hcap]
        unfold Sink.flush
        rw [hbne]
        have : s1.conn.isOpen = false := hclosed
        rw [this]
        rfl
      | cons r2 rest2 =>
        have hnocap : ¬ batchSize ≤ s1.batch.length := by
          simp only [hs1, List.length_append, List.length_cons, List.length_nil]
          simp only [List.length_cons] at hlen
          omega
        obtain ⟨s', h', hconn'⟩ := ih s1 hclosed
          (fun x hx => hobj x (List.mem_cons_of_mem _ hx))
          (by simp)
          (by simp only [hs1, List.length_append, List.length_cons, List.length_nil]
              simp only [List.length_cons] at hlen
              omega)
        refine ⟨s', ?_, hconn'⟩
        unfold writeList Sink.write
        rw [he]
        simp only [if_neg hnocap]
        exact h'

/-- C8 (amended): after `close()` the sink does not reject writes
outright: any sequence of fewer than `batch_size` (100) mapping records
is silently accepted and buffered in memory — never persisted, the store
stays at its closed state — and only the write that fills the batch to
capacity raises (its flush hits the closed connection), again leaving the
store unchanged. -/
theorem write_after_close (rs : List Json)
    (hobj : ∀ r ∈ rs, (mkEntry r).isSome = true) :
    (rs.length < batchSize →
      ∃ s', writeList closedSink rs = Except.ok s' ∧
        s'.batch.length = rs.length ∧ s'.conn.db = dbInit ∧
        s'.conn.isOpen = false) ∧
    (rs.length = batchSize →
      ∃ s', writeList closedSink rs = Except.error s' ∧ s'.conn.db = dbInit) := by
  constructor
  · intro hlt
    obtain ⟨s', h', hlen', hconn'⟩ := writeList_closed_under rs closedSink rfl hobj
      (by simpa [closedSink] using hlt)
    exact ⟨s', h', by simpa [closedSink] using hlen',
      by rw [hconn']; rfl, by rw [hconn']; rfl⟩
  · intro heq
    obtain ⟨s', h', hconn'⟩ := writeList_closed_capacity rs closedSink rfl hobj
      (by intro hnil; rw [hnil] at heq; simp [batchSize] at heq)
      (by simpa [closedSink] using heq)
    exact ⟨s', h', by rw [hconn']; rfl⟩

/-- Witness for C8 (amended) at a concrete input: one mapping record
written after close is silently buffered. -/
theorem write_after_close_witness :
    (([Json.obj []] : List Json).length < batchSize →
      ∃ s', writeList closedSink [Json.obj []] = Except.ok s' ∧
        s'.batch.length = ([Json.obj []] : List Json).length ∧
        s'.conn.db = dbInit ∧ s'.conn.isOpen = false) ∧
    (([Json.obj []] : List Json).length = batchSize →
      ∃ s', writeList closedSink [Json.obj []] = Except.error s' ∧
        s'.conn.db = dbInit) :=
  write_after_close [Json.obj []] (by decide)

/-- C10: `SqliteOutput.write` substitutes empty text for `word`/`pos`
only when the key is absent from the projected record; a key present
with any value — in particular JSON `null` — is buffered as that value
itself, not as empty text.  (`hroom` keeps the write below the flush
threshold, so the buffered batch is observable.) -/
theorem write_default_only_when_absent (s : Sink) (kvs : List (String × Json))
    (hroom : s.batch.length + 1 < batchSize) :
    ∃ e s', s.write (Json.obj kvs) = Except.ok s' ∧ s'.batch = s.batch ++ [e] ∧
      ((pyGet kvs "word") = none → e.word = Json.str "") ∧
      (∀ v, pyGet kvs "word" = some v → e.word = v) ∧
      ((pyGet kvs "pos") = none → e.pos = Json.str "") ∧
      (∀ v, pyGet kvs "pos" = some v → e.pos = v) := by
  refine ⟨{ word := pyGetD kvs "word" (Json.str ""),
            pos := pyGetD kvs "pos" (Json.str ""),
            data := Json.obj kvs },
    { s with batch := s.batch ++
        [{ word := pyGetD kvs "word" (Json.str ""),
           pos := pyGetD kvs "pos" (Json.str ""),
           data := Json.obj kvs }] }, ?_, rfl, ?_, ?_, ?_, ?_⟩
  · unfold Sink.write mkEntry
    simp only
    rw [if_neg (by simp; omega)]
  · intro h; simp [pyGetD, h]
  · intro v h; simp [pyGetD, h]
  · intro h; simp [pyGetD, h]
  · intro v h; simp [pyGetD, h]

/-- Witness for C10 at a concrete input: a fresh sink and the record
`{"word": null}` — the buffered entry's `word` is `null`, its `pos` (an
absent key) is the empty string. -/
theorem write_default_only_when_absent_witness :
    ∃ e s', sinkInit.write (Json.obj [("word", Json.null)]) = Except.ok s' ∧
      s'.batch = sinkInit.batch ++ [e] ∧
      ((pyGet [("word", Json.null)] "word") = none → e.word = Json.str "") ∧
      (∀ v, pyGet [("word", Json.null)] "word" = some v → e.word = v) ∧
      ((pyGet [("word", Json.null)] "pos") = none → e.pos = Json.str "") ∧
      (∀ v, pyGet [("word", Json.null)] "pos" = some v → e.pos = v) :=
  write_default_only_when_absent sinkInit [("word", Json.null)] (by decide)

/-! ## Index consistency (C1)

With only inserts reachable from the sink, the trigger protocol keeps
both FTS5 posting structures equal to the `(id, word)` projection of the
primary table, and auto-increment keeps the identities distinct. -/

/-- The trigger-maintained synchronization invariant of the store. -/
def Db.synced (db : Db) : Prop :=
  db.fts = db.entries.map (fun r => (r.id, r.word)) ∧
  db.ftsTrigram = db.entries.map (fun r => (r.id, r.word)) ∧
  (db.entries.map Row.id).Nodup ∧
  ∀ r ∈ db.entries, r.id < db.nextId

theorem dbInit_synced : dbInit.synced := by
  refine ⟨rfl, rfl, by simp [dbInit], ?_⟩
  intro r hr
  simp [dbInit] at hr

theorem insertEntry_synced (db : Db) (e : Entry) (db' : Db)
    (h : db.insertEntry e = Except.ok db') (hs : db.synced) : db'.synced := by
  obtain ⟨hf, ht, hnd, hlt⟩ := hs
  unfold Db.insertEntry at h
  cases hw : bindText e.word with
  | error u => rw [hw] at h; exact absurd h (by simp)
  | ok ow =>
    cases ow with
    | none => rw [hw] at h; exact absurd h (by simp)
    | some w =>
      cases hp : bindText e.pos with
      | error u => rw [hw, hp] at h; exact absurd h (by simp)
      | ok p =>
        rw [hw, hp] at h
        simp only [Except.ok.injEq] at h
        subst h
        refine ⟨?_, ?_, ?_, ?_⟩
        · simp [hf]
        · simp [ht]
        · simp only [List.map_append, List.map_cons, List.map_nil]
          rw [List.nodup_append]
          refine ⟨hnd, by simp, ?_⟩
          intro a ha
          simp only [List.mem_singleton]
          obtain ⟨r, hr, hid⟩ := List.mem_map.mp ha
          intro hEq
          rw [hEq] at hid
          exact absurd (hid ▸ hlt r hr) (by omega)
        · intro r hr
          simp only [List.mem_append, List.mem_singleton] at hr
          rcases hr with hr | hr
          · exact Nat.lt_succ_of_lt (hlt r hr)
          · rw [hr]; exact Nat.lt_succ_self _

theorem insertAll_synced (es : List Entry) (db db' : Db)
    (h : db.insertAll es = Except.ok db') (hs : db.synced) : db'.synced := by
  induction es generalizing db with
  | nil =>
    unfold Db.insertAll at h
    simp only [Except.ok.injEq] at h
    subst h
    exact hs
  | cons e rest ih =>
    unfold Db.insertAll at h
    cases h1 : db.insertEntry e with
    | error u => rw [h1] at h; exact absurd h (by simp)
    | ok db1 =>
      rw [h1] at h
      exact ih db1 h (insertEntry_synced db e db1 h1 hs)

/-- Every sink state reachable in a run keeps a synchronized persisted
database — including the states carried out by exceptions, since the
failed batch is rolled back. -/
theorem flush_synced (s : Sink) (hs : s.conn.db.synced) :
    (persistedDb s.flush).synced := by
  unfold Sink.flush persistedDb
  cases hb : s.batch.isEmpty with
  | true => simpa using hs
  | false =>
    cases ho : s.conn.isOpen with
    | false => simpa using hs
    | true =>
      simp only [Bool.false_eq_true, if_false, if_true]
      cases hall : s.conn.db.insertAll s.batch with
      | error u => simpa using hs
      | ok db' => simpa using insertAll_synced s.batch s.conn.db db' hall hs

theorem write_synced (s : Sink) (r : Json) (hs : s.conn.db.synced) :
    (persistedDb (s.write r)).synced := by
  unfold Sink.write
  cases he : mkEntry r with
  | none => simpa [persistedDb] using hs
  | some e =>
    simp only
    by_cases hcap : batchSize ≤ (s.batch ++ [e]).length
    · rw [if_pos hcap]
      exact flush_synced { s with batch := s.batch ++ [e] } hs
    · rw [if_neg hcap]
      simpa [persistedDb] using hs

theorem writeList_synced (rs : List Json) (s : Sink) (hs : s.conn.db.synced) :
    (persistedDb (writeList s rs)).synced := by
  induction rs generalizing s with
  | nil => simpa [writeList, persistedDb] using hs
  | cons r rest ih =>
    unfold writeList
    cases hw : s.write r with
    | error s' =>
      have := write_synced s r hs
      rw [hw] at this
      simpa [persistedDb] using this
    | ok s' =>
      have := write_synced s r hs
      rw [hw] at this
      exact ih s' (by simpa [persistedDb] using this)

theorem close_synced (s : Sink) (hs : s.conn.db.synced) :
    (persistedDb s.close).synced := by
  unfold Sink.close
  cases hf : s.flush with
  | error s' =>
    have := flush_synced s hs
    rw [hf] at this
    simpa [persistedDb] using this
  | ok s' =>
    have := flush_synced s hs
    rw [hf] at this
    simpa [persistedDb] using this

theorem runStore_synced (rs : List Json) :
    (persistedDb (runStore rs)).synced := by
  unfold runStore
  split
  · rename_i s hw
    have := writeList_synced rs sinkInit dbInit_synced
    rw [hw] at this
    exact close_synced s (by simpa [persistedDb] using this)
  · rename_i s hw
    have hsy : s.conn.db.synced := by
      have := writeList_synced rs sinkInit dbInit_synced
      rw [hw] at this
      simpa [persistedDb] using this
    split
    · rename_i s' hc
      have := close_synced s hsy
      rw [hc] at this
      simpa [persistedDb] using this
    · rename_i s' hc
      have := close_synced s hsy
      rw [hc] at this
      simpa [persistedDb] using this

theorem count_map_pair (l : List Row) (hnd : (l.map Row.id).Nodup)
    (r : Row) (hr : r ∈ l) :
    (l.map (fun x => (x.id, x.word))).count (r.id, r.word) = 1 := by
  induction l with
  | nil => simp at hr
  | cons x l' ih =>
    simp only [List.map_cons, List.nodup_cons] at hnd
    rcases List.mem_cons.mp hr with hrx | hr'
    · subst hrx
      rw [List.map_cons, List.count_cons_self]
      have hzero : ((l'.map (fun x => (x.id, x.word))).count (r.id, r.word)) = 0 := by
        rw [List.count_eq_zero]
        intro hmem
        obtain ⟨y, hy, hpair⟩ := List.mem_map.mp hmem
        have : y.id = r.id := congrArg Prod.fst hpair
        exact hnd.1 (this ▸ List.mem_map.mpr ⟨y, hy, rfl⟩)
      rw [hzero]
    · have hx : x.id ≠ r.id := by
        intro hEq
        exact hnd.1 (hEq ▸ List.mem_map.mpr ⟨r, hr', rfl⟩)
      rw [List.map_cons, List.count_cons_of_ne
        (by intro hEq; exact hx (congrArg Prod.fst hEq).symm)]
      exact ih hnd.2 hr'

/-- C1: Index consistency.  After any sequence of store-sink writes
followed by `close()`, every live row of the primary `entries` table has
exactly one posting for its `word` under its identity in the
prefix-tokenized structure and exactly one in the trigram-tokenized
structure, and neither structure holds a posting whose identity is
absent from the primary table. -/
theorem index_consistency (rs : List Json) :
    (∀ r ∈ (persistedDb (runStore rs)).entries,
       (persistedDb (runStore rs)).fts.count (r.id, r.word) = 1 ∧
       (persistedDb (runStore rs)).ftsTrigram.count (r.id, r.word) = 1) ∧
    (∀ p ∈ (persistedDb (runStore rs)).fts,
       ∃ r ∈ (persistedDb (runStore rs)).entries, r.id = p.1) ∧
    (∀ p ∈ (persistedDb (runStore rs)).ftsTrigram,
       ∃ r ∈ (persistedDb (runStore rs)).entries, r.id = p.1) := by
  obtain ⟨hf, ht, hnd, _⟩ := runStore_synced rs
  refine ⟨?_, ?_, ?_⟩
  · intro r hr
    rw [hf, ht]
    exact ⟨count_map_pair _ hnd r hr, count_map_pair _ hnd r hr⟩
  · intro p hp
    rw [hf] at hp
    obtain ⟨r, hr, hpr⟩ := List.mem_map.mp hp
    exact ⟨r, hr, by rw [← hpr]⟩
  · intro p hp
    rw [ht] at hp
    obtain ⟨r, hr, hpr⟩ := List.mem_map.mp hp
    exact ⟨r, hr, by rw [← hpr]⟩

/-! ## The compression pass (`compress_sqlite_db`)

The pass reads the whole finished store, compresses the buffer with the
LZFSE codec (out of scope — an arbitrary pure byte transform `codec`),
writes the result to the sibling path `db_path + ".lzfse"`, and only then
removes the original.  The filesystem is a partial map from path to byte
content; a read or write failure raises and propagates (`failed`),
with a failed write possibly leaving a truncated artifact behind. -/

/-- Byte contents of a file. -/
def ByteSeq : Type := List Nat

/-- The filesystem: path to contents. -/
def FS : Type := String → Option ByteSeq

/-- Write (create or overwrite) a file. -/
def fsWrite (fs : FS) (p : String) (b : ByteSeq) : FS :=
  fun q => if q = p then some b else fs q

/-- `os.remove`. -/
def fsRemove (fs : FS) (p : String) : FS :=
  fun q => if q = p then none else fs q

/-- Outcome of the compression pass: the resulting filesystem, plus the
artifact path on success; `failed` is an exception propagating out of
`compress_sqlite_db`. -/
inductive CompressOutcome where
  | ok (fs : FS) (artifactPath : String)
  | failed (fs : FS)

/-- `compress_sqlite_db(db_path)`: read the store (a missing file or an
injected read failure raises with the filesystem untouched), compress,
write `db_path + ".lzfse"` (an injected write failure raises, leaving at
most a truncated artifact `truncBytes` at the artifact path), report
sizes, and only after the fully successful write `os.remove` the
original. -/
def compressSqliteDb (codec : ByteSeq → ByteSeq) (readFails writeFails : Bool)
    (truncBytes : ByteSeq) (fs : FS) (dbPath : String) : CompressOutcome :=
  let compressedPath := dbPath ++ ".lzfse"
  if readFails then CompressOutcome.failed fs
  else
    match fs dbPath with
    | none => CompressOutcome.failed fs
    | some data =>
      let compressedData := codec data
      if writeFails then
        CompressOutcome.failed (fsWrite fs compressedPath truncBytes)
      else
        CompressOutcome.ok (fsRemove (fsWrite fs compressedPath compressedData) dbPath)
          compressedPath

theorem artifactPath_ne (p : String) : p ++ ".lzfse" ≠ p := by
  intro h
  have hl := congrArg String.length h
  rw [String.length_append] at hl
  have h6 : (".lzfse" : String).length = 6 := rfl
  omega

/-- C7: Compression is deletion-guarded.  If the store exists with
contents `data`, then on any failing run (read failure, missing file, or
write failure on the artifact) the original store still exists with its
contents unchanged; and on a successful run the artifact holds the
compressed bytes and the original is gone — it is removed only on the
all-successful path, strictly after the artifact write. -/
theorem compress_deletion_guarded (codec : ByteSeq → ByteSeq)
    (readFails writeFails : Bool) (truncBytes : ByteSeq) (fs : FS)
    (dbPath : String) (data : ByteSeq) (hread : fs dbPath = some data) :
    (∀ fs', compressSqliteDb codec readFails writeFails truncBytes fs dbPath
        = CompressOutcome.failed fs' → fs' dbPath = some data) ∧
    (∀ fs' ap, compressSqliteDb codec readFails writeFails truncBytes fs dbPath
        = CompressOutcome.ok fs' ap →
       ap = dbPath ++ ".lzfse" ∧ fs' ap = some (codec data) ∧ fs' dbPath = none) := by
  constructor
  · intro fs' h
    unfold compressSqliteDb at h
    cases readFails with
    | true =>
      simp only [if_true] at h
      cases h
      exact hread
    | false =>
      simp only [Bool.false_eq_true, if_false] at h
      rw [hread] at h
      simp only at h
      cases writeFails with
      | true =>
        simp only [if_true] at h
        cases h
        unfold fsWrite
        rw [if_neg (Ne.symm (artifactPath_ne dbPath))]
        exact hread
      | false => simp at h
  · intro fs' ap h
    unfold compressSqliteDb at h
    cases readFails with
    | true => simp at h
    | false =>
      simp only [Bool.false_eq_true, if_false] at h
      rw [hread] at h
      simp only at h
      cases writeFails with
      | true => simp at h
      | false =>
        simp only [Bool.false_eq_true, if_false, CompressOutcome.ok.injEq] at h
        obtain ⟨hfs, hap⟩ := h
        subst hfs
        refine ⟨hap.symm, ?_, ?_⟩
        · subst hap
          unfold fsRemove fsWrite
          rw [if_neg (artifactPath_ne dbPath), if_pos rfl]
        · unfold fsRemove
          rw [if_pos rfl]

/-- Witness for C7 at a concrete input: a one-file filesystem, the
identity codec, and an injected write failure — the original survives
with its contents. -/
theorem compress_deletion_guarded_witness :
    (∀ fs', compressSqliteDb id false true []
        (fun q => if q = "out.db" then some [7, 7] else none) "out.db"
        = CompressOutcome.failed fs' → fs' "out.db" = some [7, 7]) ∧
    (∀ fs' ap, compressSqliteDb id false true []
        (fun q => if q = "out.db" then some [7, 7] else none) "out.db"
        = CompressOutcome.ok fs' ap →
       ap = "out.db" ++ ".lzfse" ∧ fs' ap = some (id [7, 7]) ∧ fs' "out.db" = none) :=
  compress_deletion_guarded id false true []
    (fun q => if q = "out.db" then some [7, 7] else none) "out.db" [7, 7] (by simp)

/-- Witness for C3 at a concrete input: schema `{"b": null, "a": null}`
against record `{"a": 1, "c": 3}` — key `"b"` is omitted, key `"c"` is
dropped, key `"a"` survives with its projected value. -/
theorem object_projection_witness :
    filterBySchema (Json.obj [("b", Json.null), ("a", Json.null)])
        (Json.obj [("a", Json.num 1), ("c", Json.num 3)])
      = Json.obj (filterPairs [("b", Json.null), ("a", Json.null)]
          [("a", Json.num 1), ("c", Json.num 3)]) ∧
    (filterPairs [("b", Json.null), ("a", Json.null)]
        [("a", Json.num 1), ("c", Json.num 3)]).map Prod.fst
      = (([("b", Json.null), ("a", Json.null)] :
          List (String × Json)).map Prod.fst).filter
          (fun k => (pyGet [("a", Json.num 1), ("c", Json.num 3)] k).isSome) ∧
    ∀ k sv ov, pyGet [("b", Json.null), ("a", Json.null)] k = some sv →
      pyGet [("a", Json.num 1), ("c", Json.num 3)] k = some ov →
      pyGet (filterPairs [("b", Json.null), ("a", Json.null)]
        [("a", Json.num 1), ("c", Json.num 3)]) k = some (filterBySchema sv ov) :=
  object_projection [("b", Json.null), ("a", Json.null)]
    [("a", Json.num 1), ("c", Json.num 3)]

/-- Witness for C1 at a concrete input: a run over one record. -/
theorem index_consistency_witness :
    (∀ r ∈ (persistedDb (runStore [Json.obj []])).entries,
       (persistedDb (runStore [Json.obj []])).fts.count (r.id, r.word) = 1 ∧
       (persistedDb (runStore [Json.obj []])).ftsTrigram.count (r.id, r.word) = 1) ∧
    (∀ p ∈ (persistedDb (runStore [Json.obj []])).fts,
       ∃ r ∈ (persistedDb (runStore [Json.obj []])).entries, r.id = p.1) ∧
    (∀ p ∈ (persistedDb (runStore [Json.obj []])).ftsTrigram,
       ∃ r ∈ (persistedDb (runStore [Json.obj []])).entries, r.id = p.1) :=
  index_consistency [Json.obj []]
